import Mathlib

set_option maxRecDepth 10000

/-!
Verification of the at45-blockdevice driver.

Shallow embedding of the two source files:

1. src/AT45BlockDevice.h, class AT45BlockDevice. The chip collaborator
   (class AT45, external to this repository) is modelled as a page store
   together with a per-page status function for its write_page and
   read_page primitives, 0 meaning success. The driver state carried by
   the class (pagesize, and the chip behind the SPI bus) is the `Flash`
   structure. Addresses are modelled as Nat: bd_addr_t is 64-bit and the
   page indices fit in uint32_t for every AT45 part, so no wrap-around is
   reachable within device capacity. MBED_ASSERT is a debug-build check
   living in mbed (outside this repository) and compiles away in release
   builds; the embedding models the release behaviour of the function
   bodies.

2. src/DestructableSPI.cpp, class DestructableSPI. The per-instance
   desired settings (_bits, _mode, _hz) of the wrapper instances sharing
   the one physical controller are modelled as a map from instance
   identity to settings, the static _owner pointer as an Option of the
   instance identity, and the live controller registers (what spi_format
   and spi_frequency last wrote) as a settings value. Locking serialises
   the calls; the embedding models the resulting sequential semantics.
-/

namespace AT45BlockDevice

/-- The mbed success status code BD_ERROR_OK. -/
def BD_ERROR_OK : Int := 0

/-- Failure statuses of the public storage API are the negative values:
the header comments in src/AT45BlockDevice.h document every operation as
returning 0 on success or a negative error code on failure. -/
def isFailureCode (e : Int) : Prop := e < 0

/-- State of one AT45BlockDevice: the pagesize discovered from the chip
at construction, the page contents held by the chip (`store p o` is the
byte at offset `o` of page `p`, meaningful for `o < pagesize`), and the
status codes the chip collaborator returns for at45.write_page and
at45.read_page on each page (0 meaning success; the chip is external to
the repository, so its failure behaviour is an environment parameter). -/
structure Flash where
  pagesize : Nat
  store : Nat → Nat → Nat
  writeErr : Nat → Int
  readErr : Nat → Int

/-- Effect of a successful at45.write_page(buf, p) on the chip contents:
the whole page p is overwritten with the first pagesize bytes of the
buffer. -/
def writePageStore (f : Flash) (buf : Nat → Nat) (p : Nat) : Flash :=
  { f with store := fun q o => if q = p ∧ o < f.pagesize then buf o else f.store q o }

/-- The page loop of AT45BlockDevice::program (src/AT45BlockDevice.h
lines 66-81): for each page of the list, call at45.write_page with the
current buffer cursor; on a nonzero status return it at once; otherwise
advance the cursor by pagesize and continue. Returns the final status,
the final chip state, and the list of pages on which a chip operation
was issued, in order. -/
def programPages : (Nat → Nat) → Flash → List Nat → Int × Flash × List Nat
  | _, f, [] => (BD_ERROR_OK, f, [])
  | buffer, f, p :: rest =>
    if f.writeErr p ≠ 0 then
      (f.writeErr p, f, [p])
    else
      let res := programPages (fun i => buffer (f.pagesize + i)) (writePageStore f buffer p) rest
      (res.1, res.2.1, p :: res.2.2)

/-- AT45BlockDevice::program (src/AT45BlockDevice.h lines 61-84):
start_page = addr / pagesize, end_page = (addr + size) / pagesize, then
the page loop over [start_page, end_page). -/
def program (f : Flash) (buffer : Nat → Nat) (addr size : Nat) : Int × Flash × List Nat :=
  programPages buffer f
    (List.range' (addr / f.pagesize) ((addr + size) / f.pagesize - addr / f.pagesize))

/-- The page loop of AT45BlockDevice::read (src/AT45BlockDevice.h lines
98-113): for each page of the list, call at45.read_page into the caller
buffer at the current cursor; on a nonzero status return it at once;
otherwise advance the cursor by pagesize and continue. `out` is the
caller buffer, `base` the cursor. Returns the final status, the final
caller buffer, and the list of pages on which a chip operation was
issued, in order. -/
def readPages : Flash → (Nat → Nat) → Nat → List Nat → Int × (Nat → Nat) × List Nat
  | _, out, _, [] => (BD_ERROR_OK, out, [])
  | f, out, base, p :: rest =>
    if f.readErr p ≠ 0 then
      (f.readErr p, out, [p])
    else
      let out1 := fun j => if base ≤ j ∧ j < base + f.pagesize then f.store p (j - base) else out j
      let res := readPages f out1 (base + f.pagesize) rest
      (res.1, res.2.1, p :: res.2.2)

/-- AT45BlockDevice::read (src/AT45BlockDevice.h lines 93-116):
start_page = addr / pagesize, end_page = (addr + size) / pagesize, then
the page loop over [start_page, end_page) copying into the caller buffer
from cursor 0. -/
def read (f : Flash) (out : Nat → Nat) (addr size : Nat) : Int × (Nat → Nat) × List Nat :=
  readPages f out 0
    (List.range' (addr / f.pagesize) ((addr + size) / f.pagesize - addr / f.pagesize))

/-- AT45BlockDevice::erase (src/AT45BlockDevice.h lines 126-146): the
whole body besides the assert is commented out behind the warning
"Erase temporarily disabled in this driver!" and the note that this is
buggy; the function returns BD_ERROR_OK without touching the chip. -/
def erase (f : Flash) (_addr _size : Nat) : Int × Flash × List Nat :=
  (BD_ERROR_OK, f, [])

/-- AT45BlockDevice::init (src/AT45BlockDevice.h lines 42-44): the body
is a single return BD_ERROR_OK; nothing is allocated and no failure path
exists. -/
def init : Int := BD_ERROR_OK

/-- Byte stored by the device at byte address a: offset a % pagesize of
page a / pagesize. -/
def byteAt (f : Flash) (a : Nat) : Nat := f.store (a / f.pagesize) (a % f.pagesize)

/-- Concrete device for witnesses and counterexamples: pagesize 4, every
byte 0xAA (170), chip operations always succeeding. -/
def flashA : Flash :=
  { pagesize := 4
    store := fun _ _ => 170
    writeErr := fun _ => 0
    readErr := fun _ => 0 }

/-- Concrete device whose chip fails both write_page and read_page on
page 1 with status -5 and succeeds elsewhere; pagesize 4, every byte
0xAA (170). -/
def flashB : Flash :=
  { pagesize := 4
    store := fun _ _ => 170
    writeErr := fun p => if p = 1 then -5 else 0
    readErr := fun p => if p = 1 then -5 else 0 }

/-- Concrete caller buffer i ↦ i + 1. -/
def buf1 : Nat → Nat := fun i => i + 1

/-- Concrete caller buffer agreeing with buf1 below index 4 only. -/
def bufAlt : Nat → Nat := fun i => if i < 4 then i + 1 else 99

/-- Concrete constant caller buffer of 7s. -/
def buf7 : Nat → Nat := fun _ => 7

/-- Concrete zeroed destination buffer. -/
def out0 : Nat → Nat := fun _ => 0

end AT45BlockDevice

namespace DestructableSPI

/-- Desired or live SPI controller settings: protocol bits and mode (the
spi_format arguments) and the clock frequency (the spi_frequency
argument). -/
structure SPISettings where
  bits : Int
  mode : Int
  hz : Int
  deriving DecidableEq

/-- Shared state of all DestructableSPI wrapper instances on one
physical controller: the static _owner pointer (None models NULL), the
settings most recently written to the live controller via spi_format
and spi_frequency, and the per-instance desired settings _bits, _mode,
_hz, indexed by instance identity. -/
structure BusState where
  owner : Option Nat
  live : SPISettings
  desired : Nat → SPISettings

/-- DestructableSPI::_acquire (src/DestructableSPI.cpp lines 94-100),
called by instance i: if _owner != this, push the desired settings of i
onto the controller (spi_format then spi_frequency) and set _owner =
this. The Bool records whether this reconfiguration happened. The public
aquire (lines 83-91) is the same logic under the lock. -/
def aquire (s : BusState) (i : Nat) : BusState × Bool :=
  if s.owner = some i then (s, false)
  else ({ s with live := s.desired i, owner := some i }, true)

/-- Record new desired settings for instance i. -/
def setDesired (s : BusState) (i : Nat) (d : SPISettings) : BusState :=
  { s with desired := fun j => if j = i then d else s.desired j }

/-- DestructableSPI::format(bits, mode) (src/DestructableSPI.cpp lines
50-63) called by instance i: record _bits and _mode, then if _owner ==
this call spi_format (bits and mode only), else call _acquire. -/
def format (s : BusState) (i : Nat) (bits mode : Int) : BusState :=
  let s1 := setDesired s i { bits := bits, mode := mode, hz := (s.desired i).hz }
  if s1.owner = some i then
    { s1 with live := { s1.live with bits := bits, mode := mode } }
  else
    (aquire s1 i).1

/-- DestructableSPI::frequency(hz) (src/DestructableSPI.cpp lines
65-77) called by instance i: record _hz, then if _owner == this call
spi_frequency (hz only), else call _acquire. -/
def frequency (s : BusState) (i : Nat) (hz : Int) : BusState :=
  let s1 := setDesired s i { bits := (s.desired i).bits, mode := (s.desired i).mode, hz := hz }
  if s1.owner = some i then
    { s1 with live := { s1.live with hz := hz } }
  else
    (aquire s1 i).1

/-- DestructableSPI::write (src/DestructableSPI.cpp lines 102-116),
called by instance i: lock, _acquire, then the transfer itself
(spi_master_write or spi_master_block_write), which does not touch the
configuration. The Bool records whether the acquisition reconfigured
the controller. -/
def write (s : BusState) (i : Nat) : BusState × Bool := aquire s i

/-- Run a sequence of transfers, each identified by the calling
instance; collect the reconfiguration flag of each call in order. -/
def runTransfers : BusState → List Nat → BusState × List Bool
  | s, [] => (s, [])
  | s, i :: rest =>
    let r := write s i
    let res := runTransfers r.1 rest
    (res.1, r.2 :: res.2)

/-- Expected reconfiguration flags: a transfer reconfigures exactly when
the calling instance differs from the owner left by the previous call
(the first call compares against the initial owner). -/
def reconfigFlags : Option Nat → List Nat → List Bool
  | _, [] => []
  | o, i :: rest => (decide (o ≠ some i)) :: reconfigFlags (some i) rest

/-- Ownership invariant: the live controller settings equal the desired
settings of the instance recorded as current owner. -/
def OwnerInv (s : BusState) : Prop :=
  ∀ j, s.owner = some j → s.live = s.desired j

/-- Concrete bus state for witnesses and counterexamples: instance 0
owns the bus and every instance desires the construction defaults
(8 bits, mode 0, 1000000 Hz), which are live. -/
def busA : BusState :=
  { owner := some 0
    live := { bits := 8, mode := 0, hz := 1000000 }
    desired := fun _ => { bits := 8, mode := 0, hz := 1000000 } }

end DestructableSPI

namespace AT45BlockDevice

/-- C10: for every aligned (address, size), erase(address, size) returns
success (0) and issues no chip operation at all, leaving every stored
byte of the device unchanged. The embedding of erase returns BD_ERROR_OK,
an empty operation trace, and the unchanged device, for all arguments
(in particular all aligned ones). -/
theorem C10_erase_noop (f : Flash) (addr size : Nat) :
    (erase f addr size).1 = BD_ERROR_OK ∧
    (erase f addr size).2.2 = ([] : List Nat) ∧
    (erase f addr size).2.1 = f :=
  ⟨rfl, rfl, rfl⟩

/-- C2 (code bug): the claim says erase leaves every byte in range equal
to 0xFF when subsequently read, but the erase body is disabled in the
source (warning "Erase temporarily disabled in this driver!"): at the
failing input erase(0, 4) on a device holding 0xAA everywhere, the call
reports success yet byte 0 still reads 0xAA (170), not 0xFF (255). -/
theorem C2_erase_disabled_at_input :
    (erase flashA 0 4).1 = BD_ERROR_OK ∧
    byteAt (erase flashA 0 4).2.1 0 = 170 ∧ (170 : Nat) ≠ 255 :=
  ⟨rfl, rfl, by decide⟩

/-- C6 (counterexample): the claim says init returns OutOfMemory (a
failure code) when scratch-buffer allocation fails; but the init body
allocates nothing and is the constant BD_ERROR_OK, which is not a
failure code, so no call of init ever returns OutOfMemory. -/
theorem C6_counterexample : init = BD_ERROR_OK ∧ ¬ isFailureCode init :=
  ⟨rfl, by simp [isFailureCode, init, BD_ERROR_OK]⟩

/-- C6 (amended): init() performs no allocation (there is no scratch
buffer in this driver) and unconditionally returns success (0); it never
returns OutOfMemory or any other failure code. -/
theorem C6_init_always_ok :
    init = BD_ERROR_OK ∧ ∀ e : Int, isFailureCode e → init ≠ e := by
  refine ⟨rfl, fun e he => ?_⟩
  simp only [init, BD_ERROR_OK, isFailureCode] at he ⊢
  omega

/-- Witness for C6 at the concrete failure code -1. -/
theorem C6_witness : init = BD_ERROR_OK ∧ init ≠ -1 :=
  ⟨C6_init_always_ok.1, C6_init_always_ok.2 (-1) (by norm_num [isFailureCode])⟩

/-- C1 (counterexample): the claim says a program call starting mid-page
merges with the existing page content so bytes of the affected page
outside [address, address + size) are unchanged; but program(buf1, 1, 7)
on a device holding 0xAA everywhere succeeds and changes byte 0, which
lies outside [1, 8), because the code writes the caller buffer to whole
pages without any merge read. -/
theorem C1_counterexample :
    (program flashA buf1 1 7).1 = BD_ERROR_OK ∧
    byteAt (program flashA buf1 1 7).2.1 0 ≠ byteAt flashA 0 := by
  constructor
  · rfl
  · decide

/-- C3 (counterexample): the claim says program then read round-trips
for every 0 ≤ address with address + size ≤ totalSize; but with
pagesize 4 the sub-page call program(buf7, 0, 1) writes no page at all
(end_page = (0+1)/4 = 0), so the subsequent read(out0, 0, 1) leaves the
output buffer untouched: out reads 0 where buf holds 7. -/
theorem C3_counterexample :
    (read (program flashA buf7 0 1).2.1 out0 0 1).2.1 0 ≠ buf7 0 := by
  decide

end AT45BlockDevice

namespace DestructableSPI

/-- Transfers preserve the ownership invariant, and the reconfiguration
flag of each call is exactly whether the calling instance differs from
the owner left by the previous call. -/
theorem runTransfers_spec (l : List Nat) :
    ∀ s : BusState, OwnerInv s →
      OwnerInv (runTransfers s l).1 ∧ (runTransfers s l).2 = reconfigFlags s.owner l := by
  induction l with
  | nil => exact fun s h => ⟨h, rfl⟩
  | cons i rest ih =>
    intro s h
    by_cases hi : s.owner = some i
    · have h1 := ih s h
      constructor
      · simpa [runTransfers, write, aquire, hi] using h1.1
      · simp [runTransfers, write, aquire, hi, reconfigFlags, h1.2]
    · have hInv : OwnerInv { s with live := s.desired i, owner := some i } := by
        intro j hj
        obtain rfl : i = j := by simpa using hj
        rfl
      have h1 := ih _ hInv
      constructor
      · simpa [runTransfers, write, aquire, hi] using h1.1
      · simp [runTransfers, write, aquire, hi, reconfigFlags, h1.2]

/-- C5: starting from any bus state where the live settings equal the
desired settings of the recorded owner, after any sequence of transfers
the invariant still holds (so it holds after every transfer of the
sequence, each prefix being such a sequence), a transfer reconfigures
the controller exactly when the calling instance differs from the
previous owner, and in particular the sequence A, A, B, A starting with
A as owner reconfigures at the third and fourth calls only. -/
theorem C5_owner_reconfig (s : BusState) (l : List Nat) (h : OwnerInv s) :
    OwnerInv (runTransfers s l).1 ∧
    (runTransfers s l).2 = reconfigFlags s.owner l ∧
    (s.owner = some 0 → (runTransfers s [0, 0, 1, 0]).2 = [false, false, true, true]) := by
  refine ⟨(runTransfers_spec l s h).1, (runTransfers_spec l s h).2, fun h0 => ?_⟩
  rw [(runTransfers_spec [0, 0, 1, 0] s h).2, h0]
  rfl

/-- Witness for C5 at a concrete bus state (instance 0 owning the bus,
all settings at the construction defaults) and the concrete call
sequence A, A, B, A with A = 0 and B = 1. -/
theorem C5_witness :
    OwnerInv busA ∧ (runTransfers busA [0, 0, 1, 0]).2 = [false, false, true, true] :=
  ⟨fun _ _ => rfl, (C5_owner_reconfig busA [0, 0, 1, 0] (fun _ _ => rfl)).2.2 rfl⟩

/-- C8 (counterexample): the claim says a configure call on an instance
that is not the current owner leaves the live controller and the
current-owner identity unchanged; but format(16, 1) called by instance 1
while instance 0 owns the bus changes both the owner and the live
settings, because the non-owner branch of format calls _acquire. -/
theorem C8_counterexample :
    (format busA 1 16 1).owner ≠ busA.owner ∧ (format busA 1 16 1).live ≠ busA.live := by
  constructor
  · decide
  · decide

/-- C8 (amended): a configure call records the desired settings on the
calling instance; if that instance is the current owner only the touched
settings (bits and mode for format, hz for frequency) are pushed to the
live controller; otherwise the call immediately acquires the bus: it
pushes all of the desired settings of the calling instance to the live
controller and makes that instance the current owner, rather than
deferring to the next transfer. In both cases the caller ends up as
owner. -/
theorem C8_configure_applies_eagerly (s : BusState) (i : Nat) (b m hz : Int) :
    ((format s i b m).desired =
      fun j => if j = i then { bits := b, mode := m, hz := (s.desired i).hz } else s.desired j) ∧
    (format s i b m).owner = some i ∧
    ((format s i b m).live =
      if s.owner = some i then { bits := b, mode := m, hz := s.live.hz }
      else { bits := b, mode := m, hz := (s.desired i).hz }) ∧
    ((frequency s i hz).desired =
      fun j => if j = i then { bits := (s.desired i).bits, mode := (s.desired i).mode, hz := hz }
        else s.desired j) ∧
    (frequency s i hz).owner = some i ∧
    ((frequency s i hz).live =
      if s.owner = some i then { bits := s.live.bits, mode := s.live.mode, hz := hz }
      else { bits := (s.desired i).bits, mode := (s.desired i).mode, hz := hz }) := by
  by_cases h : s.owner = some i <;>
    refine ⟨?_, ?_, ?_, ?_, ?_, ?_⟩ <;>
      simp [format, frequency, setDesired, aquire, h]

end DestructableSPI


namespace AT45BlockDevice

/-- Projection: writing a page does not change the pagesize. -/
theorem writePageStore_pagesize (f : Flash) (buf : Nat → Nat) (p : Nat) :
    (writePageStore f buf p).pagesize = f.pagesize := rfl

/-- Projection: writing a page does not change the write statuses. -/
theorem writePageStore_writeErr (f : Flash) (buf : Nat → Nat) (p : Nat) :
    (writePageStore f buf p).writeErr = f.writeErr := rfl

/-- Projection: writing a page does not change the read statuses. -/
theorem writePageStore_readErr (f : Flash) (buf : Nat → Nat) (p : Nat) :
    (writePageStore f buf p).readErr = f.readErr := rfl

/-- Projection: the store after writing a page. -/
theorem writePageStore_store (f : Flash) (buf : Nat → Nat) (p q o : Nat) :
    (writePageStore f buf p).store q o =
      if q = p ∧ o < f.pagesize then buf o else f.store q o := rfl

/-- Success run of the program page loop over the window [sp, sp + n):
status BD_ERROR_OK, trace exactly the window in order, the chip fields
other than the store unchanged, and the store holding the caller bytes
at cursor (q - sp) * pagesize on every window page, unchanged elsewhere. -/
theorem programPages_ok (n : Nat) :
    ∀ (sp : Nat) (buffer : Nat → Nat) (f : Flash),
      (∀ p, sp ≤ p → p < sp + n → f.writeErr p = 0) →
      (programPages buffer f (List.range' sp n)).1 = BD_ERROR_OK ∧
      (programPages buffer f (List.range' sp n)).2.2 = List.range' sp n ∧
      (programPages buffer f (List.range' sp n)).2.1.pagesize = f.pagesize ∧
      (programPages buffer f (List.range' sp n)).2.1.writeErr = f.writeErr ∧
      (programPages buffer f (List.range' sp n)).2.1.readErr = f.readErr ∧
      ∀ q o, (programPages buffer f (List.range' sp n)).2.1.store q o =
        if sp ≤ q ∧ q < sp + n ∧ o < f.pagesize then buffer ((q - sp) * f.pagesize + o)
        else f.store q o := by
  induction n with
  | zero =>
    intro sp buffer f _
    refine ⟨rfl, rfl, rfl, rfl, rfl, fun q o => ?_⟩
    show f.store q o = _
    rw [if_neg]
    omega
  | succ n ih =>
    intro sp buffer f h
    have hw : f.writeErr sp = 0 := h sp le_rfl (by omega)
    have hrec := ih (sp + 1) (fun i => buffer (f.pagesize + i)) (writePageStore f buffer sp)
      (fun p h1 h2 => h p (by omega) (by omega))
    simp only [writePageStore_pagesize, writePageStore_writeErr, writePageStore_readErr,
      writePageStore_store] at hrec
    rw [List.range'_succ]
    simp only [programPages, hw, ne_eq, not_true_eq_false, ite_false]
    refine ⟨hrec.1, ?_, hrec.2.2.1, hrec.2.2.2.1, hrec.2.2.2.2.1, fun q o => ?_⟩
    · rw [hrec.2.1]
    · rw [hrec.2.2.2.2.2 q o]
      by_cases hq1 : sp + 1 ≤ q ∧ q < sp + 1 + n ∧ o < f.pagesize
      · rw [if_pos hq1, if_pos (by omega)]
        have e1 : q - sp = (q - (sp + 1)) + 1 := by omega
        have e2 : f.pagesize + ((q - (sp + 1)) * f.pagesize + o) =
            ((q - (sp + 1)) + 1) * f.pagesize + o := by ring
        rw [e1, e2]
      · rw [if_neg hq1]
        by_cases hq2 : q = sp ∧ o < f.pagesize
        · rw [if_pos hq2, if_pos (by omega)]
          obtain ⟨rfl, -⟩ := hq2
          simp
        · rw [if_neg hq2, if_neg (by omega)]

/-- On any run of the program page loop, every page of the trace comes
from the input page list. -/
theorem programPages_trace_sub (l : List Nat) :
    ∀ (buffer : Nat → Nat) (f : Flash) (p : Nat),
      p ∈ (programPages buffer f l).2.2 → p ∈ l := by
  induction l with
  | nil => intro buffer f p hp; simp [programPages] at hp
  | cons a rest ih =>
    intro buffer f p hp
    by_cases ha : f.writeErr a ≠ 0
    · simp [programPages, ha] at hp
      simp [hp]
    · simp only [programPages, ha, ite_false] at hp
      rcases List.mem_cons.1 hp with h | h
      · simp [h]
      · exact List.mem_cons_of_mem a (ih _ _ p h)

/-- On any run of the program page loop, pages outside the input list
keep their contents. -/
theorem programPages_frame (l : List Nat) :
    ∀ (buffer : Nat → Nat) (f : Flash) (q o : Nat),
      q ∉ l → (programPages buffer f l).2.1.store q o = f.store q o := by
  induction l with
  | nil => intro buffer f q o _; rfl
  | cons a rest ih =>
    intro buffer f q o hq
    by_cases ha : f.writeErr a ≠ 0
    · simp [programPages, ha]
    · simp only [programPages, ha, ite_false]
      rw [ih _ _ q o (fun h => hq (List.mem_cons_of_mem a h))]
      rw [writePageStore_store]
      rw [if_neg (fun hc => hq (by simp [hc.1]))]

/-- The result of the program page loop depends on the caller buffer
only through its first length * pagesize bytes. -/
theorem programPages_congr (l : List Nat) :
    ∀ (f : Flash) (b1 b2 : Nat → Nat),
      (∀ i, i < l.length * f.pagesize → b1 i = b2 i) →
      programPages b1 f l = programPages b2 f l := by
  induction l with
  | nil => intro f b1 b2 _; rfl
  | cons a rest ih =>
    intro f b1 b2 hag
    have hmul : (rest.length + 1) * f.pagesize = rest.length * f.pagesize + f.pagesize :=
      Nat.succ_mul _ _
    by_cases ha : f.writeErr a ≠ 0
    · simp [programPages, ha]
    · have hwps : writePageStore f b1 a = writePageStore f b2 a := by
        simp only [writePageStore]
        congr 1
        funext q o
        by_cases hc : q = a ∧ o < f.pagesize
        · rw [if_pos hc, if_pos hc]
          exact hag o (by simp only [List.length_cons]; omega)
        · rw [if_neg hc, if_neg hc]
      have hrest : programPages (fun i => b1 (f.pagesize + i)) (writePageStore f b2 a) rest =
          programPages (fun i => b2 (f.pagesize + i)) (writePageStore f b2 a) rest := by
        apply ih
        intro i hi
        rw [writePageStore_pagesize] at hi
        exact hag (f.pagesize + i) (by simp only [List.length_cons]; omega)
      simp only [programPages, ha, ite_false, hwps, hrest]

/-- A failing run of the program page loop: if every page of [sp, sp+k)
succeeds and page sp + k fails inside the window [sp, sp + n), the loop
returns the status of page sp + k, its trace is the pages sp through
sp + k in order, and the chip ends in the state of the successful run
over [sp, sp + k). -/
theorem programPages_fail (k : Nat) :
    ∀ (n sp : Nat) (buffer : Nat → Nat) (f : Flash),
      k < n →
      (∀ p, sp ≤ p → p < sp + k → f.writeErr p = 0) →
      f.writeErr (sp + k) ≠ 0 →
      (programPages buffer f (List.range' sp n)).1 = f.writeErr (sp + k) ∧
      (programPages buffer f (List.range' sp n)).2.2 = List.range' sp (k + 1) ∧
      (programPages buffer f (List.range' sp n)).2.1 =
        (programPages buffer f (List.range' sp k)).2.1 := by
  induction k with
  | zero =>
    intro n sp buffer f hk h0 hf
    obtain ⟨m, rfl⟩ : ∃ m, n = m + 1 := ⟨n - 1, by omega⟩
    simp only [Nat.add_zero] at hf
    rw [List.range'_succ]
    simp [programPages, hf, List.range'_succ]
  | succ k ih =>
    intro n sp buffer f hk h0 hf
    obtain ⟨m, rfl⟩ : ∃ m, n = m + 1 := ⟨n - 1, by omega⟩
    have hw : f.writeErr sp = 0 := h0 sp le_rfl (by omega)
    have hrec := ih m (sp + 1) (fun i => buffer (f.pagesize + i)) (writePageStore f buffer sp)
      (by omega) (fun p h1 h2 => h0 p (by omega) (by omega))
      (by rw [writePageStore_writeErr]
          have e : sp + 1 + k = sp + (k + 1) := by omega
          rw [e]; exact hf)
    simp only [writePageStore_writeErr] at hrec
    rw [List.range'_succ, List.range'_succ sp (k + 1)]
    simp only [programPages, hw, ne_eq, not_true_eq_false, ite_false]
    have heq : sp + 1 + k = sp + (k + 1) := by omega
    refine ⟨by rw [hrec.1, heq], ?_, ?_⟩
    · rw [hrec.2.1, List.range'_succ]
    · rw [hrec.2.2]

end AT45BlockDevice

namespace AT45BlockDevice

/-- Success run of the read page loop over the window [sp, sp + n) with
cursor base: status BD_ERROR_OK, trace exactly the window in order, and
the caller buffer holding, for indices in [base, base + n * pagesize),
the chip byte of the corresponding window page and offset, unchanged
elsewhere. -/
theorem readPages_ok (n : Nat) :
    ∀ (sp base : Nat) (out : Nat → Nat) (f : Flash),
      0 < f.pagesize →
      (∀ p, sp ≤ p → p < sp + n → f.readErr p = 0) →
      (readPages f out base (List.range' sp n)).1 = BD_ERROR_OK ∧
      (readPages f out base (List.range' sp n)).2.2 = List.range' sp n ∧
      ∀ j, (readPages f out base (List.range' sp n)).2.1 j =
        if base ≤ j ∧ j < base + n * f.pagesize then
          f.store (sp + (j - base) / f.pagesize) ((j - base) % f.pagesize)
        else out j := by
  induction n with
  | zero =>
    intro sp base out f _ _
    refine ⟨rfl, rfl, fun j => ?_⟩
    show out j = _
    rw [if_neg]
    omega
  | succ n ih =>
    intro sp base out f hps h
    have hr : f.readErr sp = 0 := h sp le_rfl (by omega)
    have hmul : (n + 1) * f.pagesize = n * f.pagesize + f.pagesize := Nat.succ_mul _ _
    have hrec := ih (sp + 1) (base + f.pagesize)
      (fun j => if base ≤ j ∧ j < base + f.pagesize then f.store sp (j - base) else out j) f hps
      (fun p h1 h2 => h p (by omega) (by omega))
    rw [List.range'_succ]
    simp only [readPages, hr, ne_eq, not_true_eq_false, ite_false]
    refine ⟨hrec.1, by rw [hrec.2.1], fun j => ?_⟩
    rw [hrec.2.2 j]
    by_cases h1 : base + f.pagesize ≤ j ∧ j < base + f.pagesize + n * f.pagesize
    · rw [if_pos h1, if_pos (by omega)]
      have e1 : j - base = (j - (base + f.pagesize)) + f.pagesize := by omega
      have ediv : (j - base) / f.pagesize = (j - (base + f.pagesize)) / f.pagesize + 1 := by
        rw [e1, Nat.add_div_right _ hps]
      have emod : (j - base) % f.pagesize = (j - (base + f.pagesize)) % f.pagesize := by
        rw [e1, Nat.add_mod_right]
      have eadd : sp + ((j - (base + f.pagesize)) / f.pagesize + 1) =
          sp + 1 + (j - (base + f.pagesize)) / f.pagesize := by omega
      rw [ediv, emod, eadd]
    · rw [if_neg h1]
      show (if base ≤ j ∧ j < base + f.pagesize then f.store sp (j - base) else out j) = _
      by_cases h2 : base ≤ j ∧ j < base + f.pagesize
      · rw [if_pos h2, if_pos (by omega)]
        have ediv : (j - base) / f.pagesize = 0 := Nat.div_eq_of_lt (by omega)
        have emod : (j - base) % f.pagesize = j - base := Nat.mod_eq_of_lt (by omega)
        rw [ediv, emod, Nat.add_zero]
      · rw [if_neg h2, if_neg (by omega)]

/-- On any run of the read page loop, every page of the trace comes from
the input page list. -/
theorem readPages_trace_sub (l : List Nat) :
    ∀ (out : Nat → Nat) (base : Nat) (f : Flash) (p : Nat),
      p ∈ (readPages f out base l).2.2 → p ∈ l := by
  induction l with
  | nil => intro out base f p hp; simp [readPages] at hp
  | cons a rest ih =>
    intro out base f p hp
    by_cases ha : f.readErr a ≠ 0
    · simp [readPages, ha] at hp
      simp [hp]
    · simp only [readPages, ha, ite_false] at hp
      rcases List.mem_cons.1 hp with h | h
      · simp [h]
      · exact List.mem_cons_of_mem a (ih _ _ _ p h)

/-- On any run of the read page loop, caller-buffer indices outside
[base, base + length * pagesize) keep their contents. -/
theorem readPages_frame (l : List Nat) :
    ∀ (out : Nat → Nat) (base : Nat) (f : Flash) (j : Nat),
      j < base ∨ base + l.length * f.pagesize ≤ j →
      (readPages f out base l).2.1 j = out j := by
  induction l with
  | nil => intro out base f j _; rfl
  | cons a rest ih =>
    intro out base f j hj
    have hmul : (rest.length + 1) * f.pagesize = rest.length * f.pagesize + f.pagesize :=
      Nat.succ_mul _ _
    by_cases ha : f.readErr a ≠ 0
    · simp [readPages, ha]
    · simp only [readPages, ha, ite_false]
      rw [ih _ _ _ j (by simp only [List.length_cons] at hj ⊢; omega)]
      rw [if_neg (by simp only [List.length_cons] at hj; omega)]

/-- A failing run of the read page loop: if every page of [sp, sp+k)
succeeds and page sp + k fails inside the window [sp, sp + n), the loop
returns the status of page sp + k, its trace is the pages sp through
sp + k in order, and the caller buffer ends as after the successful run
over [sp, sp + k). -/
theorem readPages_fail (k : Nat) :
    ∀ (n sp base : Nat) (out : Nat → Nat) (f : Flash),
      k < n →
      (∀ p, sp ≤ p → p < sp + k → f.readErr p = 0) →
      f.readErr (sp + k) ≠ 0 →
      (readPages f out base (List.range' sp n)).1 = f.readErr (sp + k) ∧
      (readPages f out base (List.range' sp n)).2.2 = List.range' sp (k + 1) ∧
      (readPages f out base (List.range' sp n)).2.1 =
        (readPages f out base (List.range' sp k)).2.1 := by
  induction k with
  | zero =>
    intro n sp base out f hk h0 hf
    obtain ⟨m, rfl⟩ : ∃ m, n = m + 1 := ⟨n - 1, by omega⟩
    simp only [Nat.add_zero] at hf
    rw [List.range'_succ]
    simp [readPages, hf, List.range'_succ]
  | succ k ih =>
    intro n sp base out f hk h0 hf
    obtain ⟨m, rfl⟩ : ∃ m, n = m + 1 := ⟨n - 1, by omega⟩
    have hr : f.readErr sp = 0 := h0 sp le_rfl (by omega)
    have hrec := ih m (sp + 1) (base + f.pagesize)
      (fun j => if base ≤ j ∧ j < base + f.pagesize then f.store sp (j - base) else out j) f
      (by omega) (fun p h1 h2 => h0 p (by omega) (by omega))
      (by have e : sp + 1 + k = sp + (k + 1) := by omega
          rw [e]; exact hf)
    rw [List.range'_succ, List.range'_succ sp (k + 1)]
    simp only [readPages, hr, ne_eq, not_true_eq_false, ite_false]
    have heq : sp + 1 + k = sp + (k + 1) := by omega
    refine ⟨by rw [hrec.1, heq], ?_, ?_⟩
    · rw [hrec.2.1, List.range'_succ]
    · rw [hrec.2.2]

end AT45BlockDevice

namespace AT45BlockDevice

/-- C1 (amended): program performs no read-modify-write merge. When
every affected page write succeeds, every page of the window
[start_page, end_page) holds exactly the caller bytes taken at the
page-sized cursor (q - start_page) * pagesize — including the bytes of
the start page in front of a mid-page address — and pages outside the
window are unchanged. Bytes of an affected page outside
[address, address + size) are therefore overwritten with caller data,
not preserved by a merge. -/
theorem C1_program_no_merge (f : Flash) (buffer : Nat → Nat) (addr size q o : Nat)
    (hok : ∀ p, addr / f.pagesize ≤ p → p < (addr + size) / f.pagesize → f.writeErr p = 0) :
    (program f buffer addr size).2.1.store q o =
      if addr / f.pagesize ≤ q ∧ q < (addr + size) / f.pagesize ∧ o < f.pagesize then
        buffer ((q - addr / f.pagesize) * f.pagesize + o)
      else f.store q o := by
  have hle : addr / f.pagesize ≤ (addr + size) / f.pagesize :=
    Nat.div_le_div_right (Nat.le_add_right _ _)
  have hspan : addr / f.pagesize + ((addr + size) / f.pagesize - addr / f.pagesize) =
      (addr + size) / f.pagesize := by omega
  have h := (programPages_ok ((addr + size) / f.pagesize - addr / f.pagesize)
    (addr / f.pagesize) buffer f (fun p h1 h2 => hok p h1 (by omega))).2.2.2.2.2 q o
  unfold program
  rw [h, hspan]

/-- Witness for C1 (amended) at the concrete mid-page call
program(buf1, 1, 7) on flashA: offset 2 of page 0 receives buf1 2 even
though device byte 2 lies outside no page boundary merge, and page 5
stays untouched. -/
theorem C1_witness :
    (program flashA buf1 1 7).2.1.store 0 2 = buf1 2 ∧
    (program flashA buf1 1 7).2.1.store 5 0 = flashA.store 5 0 := by
  have h1 := C1_program_no_merge flashA buf1 1 7 0 2 (fun p _ _ => rfl)
  have h2 := C1_program_no_merge flashA buf1 1 7 5 0 (fun p _ _ => rfl)
  constructor
  · rw [h1, if_pos (by decide)]
    decide
  · rw [h2, if_neg (by decide)]

/-- C3 (amended): for every page-aligned (address, size) within which
every chip operation succeeds, program(buf, address, size) followed by
read(out, address, size) returns success twice and yields out = buf on
every index below size. The original claim quantified over all
(address, size) within capacity; sub-page ranges fail (see the
counterexample), and page alignment is exactly the precondition the
source asserts via is_valid_read and is_valid_program. -/
theorem C3_roundtrip_aligned (f : Flash) (buffer out : Nat → Nat) (addr size i : Nat)
    (hps : 0 < f.pagesize)
    (ha : f.pagesize ∣ addr) (hs : f.pagesize ∣ size)
    (hw : ∀ p, addr / f.pagesize ≤ p → p < (addr + size) / f.pagesize → f.writeErr p = 0)
    (hr : ∀ p, addr / f.pagesize ≤ p → p < (addr + size) / f.pagesize → f.readErr p = 0)
    (hi : i < size) :
    (program f buffer addr size).1 = BD_ERROR_OK ∧
    (read (program f buffer addr size).2.1 out addr size).1 = BD_ERROR_OK ∧
    (read (program f buffer addr size).2.1 out addr size).2.1 i = buffer i := by
  obtain ⟨A, rfl⟩ := ha
  obtain ⟨S, rfl⟩ := hs
  have e1 : f.pagesize * A / f.pagesize = A := Nat.mul_div_cancel_left A hps
  have e2 : (f.pagesize * A + f.pagesize * S) / f.pagesize = A + S := by
    rw [← Nat.mul_add, Nat.mul_div_cancel_left _ hps]
  have e3 : A + S - A = S := by omega
  simp only [e1, e2] at hw hr
  have hP := programPages_ok S A buffer f hw
  unfold program read
  simp only [e1, e2, e3]
  rw [hP.2.2.1]
  simp only [e1, e2, e3]
  set f1 := (programPages buffer f (List.range' A S)).2.1 with hf1
  have hR := readPages_ok S A 0 out f1
    (by rw [hP.2.2.1]; exact hps)
    (fun p h1 h2 => by rw [hP.2.2.2.2.1]; exact hr p h1 h2)
  rw [hP.2.2.1] at hR
  refine ⟨hP.1, hR.1, ?_⟩
  rw [hR.2.2 i]
  rw [if_pos ⟨Nat.zero_le i, by rw [Nat.zero_add, Nat.mul_comm S f.pagesize]; exact hi⟩]
  have hdiv : i / f.pagesize < S :=
    (Nat.div_lt_iff_lt_mul hps).2 (by rw [Nat.mul_comm S f.pagesize]; exact hi)
  have hstore := hP.2.2.2.2.2 (A + (i - 0) / f.pagesize) ((i - 0) % f.pagesize)
  rw [hstore, if_pos ?side]
  case side =>
    refine ⟨Nat.le_add_right _ _, ?_, Nat.mod_lt _ hps⟩
    simp only [Nat.sub_zero]
    omega
  simp only [Nat.sub_zero, Nat.add_sub_cancel_left]
  rw [Nat.mul_comm (i / f.pagesize) f.pagesize]
  rw [Nat.div_add_mod]

/-- Witness for C3 (amended) at the aligned call program(buf1, 4, 4)
then read at index 2 on flashA. -/
theorem C3_witness :
    (program flashA buf1 4 4).1 = BD_ERROR_OK ∧
    (read (program flashA buf1 4 4).2.1 out0 4 4).2.1 2 = buf1 2 := by
  have h := C3_roundtrip_aligned flashA buf1 out0 4 4 2 (by decide) ⟨1, rfl⟩ ⟨1, rfl⟩
    (fun _ _ _ => rfl) (fun _ _ _ => rfl) (by decide)
  exact ⟨h.1, h.2.2⟩

end AT45BlockDevice

namespace AT45BlockDevice

/-- C4: on a multi-page program or read whose first k affected pages
succeed and whose page start_page + k fails, the call returns exactly
that page's error code, the chip operations issued are exactly the pages
start_page through start_page + k in order (no later page is processed),
and the pages written before the failure keep their new contents while
everything else is unchanged (no rollback); likewise for read, the
caller-buffer bytes copied before the failure remain and the rest stay
untouched. -/
theorem C4_abort_first_failure (f : Flash) (buffer out : Nat → Nat) (addr size k q o j : Nat)
    (hps : 0 < f.pagesize)
    (hk : addr / f.pagesize + k < (addr + size) / f.pagesize)
    (hw0 : ∀ p, addr / f.pagesize ≤ p → p < addr / f.pagesize + k → f.writeErr p = 0)
    (hwf : f.writeErr (addr / f.pagesize + k) ≠ 0)
    (hr0 : ∀ p, addr / f.pagesize ≤ p → p < addr / f.pagesize + k → f.readErr p = 0)
    (hrf : f.readErr (addr / f.pagesize + k) ≠ 0) :
    (program f buffer addr size).1 = f.writeErr (addr / f.pagesize + k) ∧
    (program f buffer addr size).2.2 = List.range' (addr / f.pagesize) (k + 1) ∧
    (program f buffer addr size).2.1.store q o =
      (if addr / f.pagesize ≤ q ∧ q < addr / f.pagesize + k ∧ o < f.pagesize then
        buffer ((q - addr / f.pagesize) * f.pagesize + o)
      else f.store q o) ∧
    (read f out addr size).1 = f.readErr (addr / f.pagesize + k) ∧
    (read f out addr size).2.2 = List.range' (addr / f.pagesize) (k + 1) ∧
    (read f out addr size).2.1 j =
      (if j < k * f.pagesize then
        f.store (addr / f.pagesize + j / f.pagesize) (j % f.pagesize)
      else out j) := by
  have hle : addr / f.pagesize ≤ (addr + size) / f.pagesize :=
    Nat.div_le_div_right (Nat.le_add_right _ _)
  have hkn : k < (addr + size) / f.pagesize - addr / f.pagesize := by omega
  have hPF := programPages_fail k ((addr + size) / f.pagesize - addr / f.pagesize)
    (addr / f.pagesize) buffer f hkn hw0 hwf
  have hPO := programPages_ok k (addr / f.pagesize) buffer f hw0
  have hRF := readPages_fail k ((addr + size) / f.pagesize - addr / f.pagesize)
    (addr / f.pagesize) 0 out f hkn hr0 hrf
  have hRO := readPages_ok k (addr / f.pagesize) 0 out f hps hr0
  unfold program read
  refine ⟨hPF.1, hPF.2.1, ?_, hRF.1, hRF.2.1, ?_⟩
  · rw [hPF.2.2, hPO.2.2.2.2.2 q o]
  · rw [hRF.2.2, hRO.2.2 j]
    by_cases hj : j < k * f.pagesize
    · rw [if_pos ⟨Nat.zero_le j, by omega⟩, if_pos hj]
      simp only [Nat.sub_zero]
    · rw [if_neg (by omega), if_neg hj]

/-- Witness for C4 at flashB, whose chip fails page 1 with status -5:
program(buf1, 0, 12) spans pages 0..2, writes page 0, fails at page 1
and stops there; likewise for read. -/
theorem C4_witness :
    (program flashB buf1 0 12).1 = -5 ∧
    (program flashB buf1 0 12).2.2 = [0, 1] ∧
    (program flashB buf1 0 12).2.1.store 0 0 = buf1 0 ∧
    (read flashB out0 0 12).1 = -5 ∧
    (read flashB out0 0 12).2.2 = [0, 1] ∧
    (read flashB out0 0 12).2.1 0 = flashB.store 0 0 := by
  have h := C4_abort_first_failure flashB buf1 out0 0 12 1 0 0 0 (by decide) (by decide)
    (fun p h1 h2 => by
      simp only [flashB, Nat.zero_div] at h2
      have hp : p = 0 := by omega
      subst hp
      decide)
    (by decide)
    (fun p h1 h2 => by
      simp only [flashB, Nat.zero_div] at h2
      have hp : p = 0 := by omega
      subst hp
      decide)
    (by decide)
  refine ⟨?_, ?_, ?_, ?_, ?_, ?_⟩
  · rw [h.1]; decide
  · rw [h.2.1]; decide
  · rw [h.2.2.1]; decide
  · rw [h.2.2.2.1]; decide
  · rw [h.2.2.2.2.1]; decide
  · rw [h.2.2.2.2.2]; decide

/-- C7: within one successful program or read call, the chip operations
are issued for exactly the pages start_page, start_page + 1, ...,
end_page - 1, in strictly ascending page order; the trace lists the
operations in issue order, each page operation completing before the
next page begins. -/
theorem C7_ascending_pages (f : Flash) (buffer out : Nat → Nat) (addr size : Nat)
    (hps : 0 < f.pagesize)
    (hw : ∀ p, addr / f.pagesize ≤ p → p < (addr + size) / f.pagesize → f.writeErr p = 0)
    (hr : ∀ p, addr / f.pagesize ≤ p → p < (addr + size) / f.pagesize → f.readErr p = 0) :
    (program f buffer addr size).2.2 =
      List.range' (addr / f.pagesize) ((addr + size) / f.pagesize - addr / f.pagesize) ∧
    (read f out addr size).2.2 =
      List.range' (addr / f.pagesize) ((addr + size) / f.pagesize - addr / f.pagesize) ∧
    List.Pairwise (· < ·) ((program f buffer addr size).2.2) ∧
    List.Pairwise (· < ·) ((read f out addr size).2.2) := by
  have hle : addr / f.pagesize ≤ (addr + size) / f.pagesize :=
    Nat.div_le_div_right (Nat.le_add_right _ _)
  have hP := programPages_ok ((addr + size) / f.pagesize - addr / f.pagesize)
    (addr / f.pagesize) buffer f (fun p h1 h2 => hw p h1 (by omega))
  have hR := readPages_ok ((addr + size) / f.pagesize - addr / f.pagesize)
    (addr / f.pagesize) 0 out f hps (fun p h1 h2 => hr p h1 (by omega))
  unfold program read
  refine ⟨hP.2.1, hR.2.1, ?_, ?_⟩
  · rw [hP.2.1]
    exact List.pairwise_lt_range' _ _
  · rw [hR.2.1]
    exact List.pairwise_lt_range' _ _

/-- Witness for C7 at flashA and the call range (4, 8): pages 1 and 2,
in ascending order, for both program and read. -/
theorem C7_witness :
    (program flashA buf1 4 8).2.2 = [1, 2] ∧
    (read flashA out0 4 8).2.2 = [1, 2] ∧
    List.Pairwise (· < ·) ((program flashA buf1 4 8).2.2) := by
  have h := C7_ascending_pages flashA buf1 out0 4 8 (by decide)
    (fun _ _ _ => rfl) (fun _ _ _ => rfl)
  refine ⟨?_, ?_, h.2.2.1⟩
  · rw [h.1]
    decide
  · rw [h.2.1]
    decide

/-- C9: when address + size is not a multiple of pagesize, the page
end_page = (address + size) / pagesize holding the trailing partial
bytes of the range is never transferred: it appears in no operation
trace of program or read, its stored bytes are unchanged by program,
caller-buffer bytes at or beyond (end_page - start_page) * pagesize are
unchanged by read, and program never reads caller bytes at or beyond
that bound (two buffers agreeing below it program identically). -/
theorem C9_partial_tail_never_touched (f : Flash) (b1 b2 out : Nat → Nat)
    (addr size o j : Nat)
    (_hmis : (addr + size) % f.pagesize ≠ 0)
    (hag : ∀ i, i < ((addr + size) / f.pagesize - addr / f.pagesize) * f.pagesize → b1 i = b2 i)
    (hj : ((addr + size) / f.pagesize - addr / f.pagesize) * f.pagesize ≤ j) :
    (addr + size) / f.pagesize ∉ (program f b1 addr size).2.2 ∧
    (addr + size) / f.pagesize ∉ (read f out addr size).2.2 ∧
    (program f b1 addr size).2.1.store ((addr + size) / f.pagesize) o =
      f.store ((addr + size) / f.pagesize) o ∧
    program f b1 addr size = program f b2 addr size ∧
    (read f out addr size).2.1 j = out j := by
  have hle : addr / f.pagesize ≤ (addr + size) / f.pagesize :=
    Nat.div_le_div_right (Nat.le_add_right _ _)
  have hnot : (addr + size) / f.pagesize ∉
      List.range' (addr / f.pagesize) ((addr + size) / f.pagesize - addr / f.pagesize) := by
    intro hmem
    rw [List.mem_range'_1] at hmem
    omega
  unfold program read
  refine ⟨fun hm => hnot (programPages_trace_sub _ _ _ _ hm),
    fun hm => hnot (readPages_trace_sub _ _ _ _ _ hm),
    programPages_frame _ _ _ _ _ hnot, ?_, ?_⟩
  · apply programPages_congr
    intro i hi
    apply hag
    rwa [List.length_range'] at hi
  · apply readPages_frame
    right
    rw [List.length_range']
    omega

/-- Witness for C9 at flashA with the call range (0, 6): pagesize 4, so
end_page is 1; page 1 is in no trace and keeps its bytes, read leaves
caller index 5 alone, and two buffers agreeing on the first 4 bytes
program identically. -/
theorem C9_witness :
    (6 : Nat) % flashA.pagesize ≠ 0 ∧
    (1 : Nat) ∉ (program flashA buf1 0 6).2.2 ∧
    (program flashA buf1 0 6).2.1.store 1 0 = flashA.store 1 0 ∧
    program flashA buf1 0 6 = program flashA bufAlt 0 6 ∧
    (read flashA out0 0 6).2.1 5 = out0 5 := by
  have h := C9_partial_tail_never_touched flashA buf1 bufAlt out0 0 6 0 5
    (by decide)
    (fun i hi => by
      norm_num [flashA] at hi
      simp [buf1, bufAlt, hi])
    (by decide)
  exact ⟨by decide, h.1, h.2.2.1, h.2.2.2.1, h.2.2.2.2⟩

end AT45BlockDevice
